import Mathlib

/-!
# Verification of the AIssist document-as-conversation codec

Shallow embedding of the AIssist Obsidian plugin core (`src/main.ts`,
`src/settings.ts`): the turn encoder, the conversation decoder
(`parseMessages`), the prompt extractor (`parsePrompt`, non-selection path),
the configuration resolver (`prepareOpenAIChatCompletionRequest`), the
usage-counter merge of `insertResponse`, the system-message prepending of
`requestOpenAIChatCompletion`, and the timestamp formatter
(`insertTimestamp`).

Strings are modelled as `List Char` (`String.data`); the JavaScript regular
expressions of the source are modelled by explicit leftmost-match scanners
whose semantics are spelled out at each definition.
-/

set_option autoImplicit false

namespace AIssist

/-! ## Basic string machinery -/

/-- ASCII fragment of the whitespace class trimmed by JavaScript
`String.prototype.trim`. -/
def isJsWs (c : Char) : Bool :=
  c = ' ' || c = '\t' || c = '\n' || c = '\r' || c = '\x0b' || c = '\x0c'

/-- Left trim, as in JS `trim()` (leading part). -/
def jsTrimL (l : List Char) : List Char := l.dropWhile isJsWs

/-- Right trim, as in JS `trim()` (trailing part). -/
def jsTrimR (l : List Char) : List Char := (l.reverse.dropWhile isJsWs).reverse

/-- JS `String.prototype.trim`. -/
def jsTrim (l : List Char) : List Char := jsTrimR (jsTrimL l)

/-- `s` begins with `d`. -/
def startsWithL (s d : List Char) : Bool := s.take d.length == d

/-- Index of the leftmost occurrence of `d` in `s` (`String.indexOf` /
leftmost regex literal match). -/
def findSub (d : List Char) : List Char → Option Nat
  | [] => if startsWithL [] d then some 0 else none
  | c :: t => if startsWithL (c :: t) d then some 0 else (findSub d t).map (· + 1)

/-- `d` occurs in `s` at position `p`. -/
def occursAt (d s : List Char) (p : Nat) : Prop := startsWithL (s.drop p) d = true

instance (d s : List Char) (p : Nat) : Decidable (occursAt d s p) := by
  unfold occursAt; infer_instance

/-- JS `str.split('\n')`. -/
def splitNl : List Char → List (List Char)
  | [] => [[]]
  | c :: t =>
    if c = '\n' then [] :: splitNl t
    else match splitNl t with
      | h :: r => (c :: h) :: r
      | [] => [[c]]

/-! ## Marker constants (`src/main.ts` lines 40–42) -/

/-- `MARKER_START` -/
def MARKER_START : String := "%% AIssist"

/-- `MARKER_END` -/
def MARKER_END : String := "%%"

/-- `USER_EMOJI` -/
def USER_EMOJI : String := ":technologist:"

/-- The literal head of the block regex `%% AIssist; role:` (what must be
matched before the role capture group). -/
def blockHead : List Char := (MARKER_START ++ "; role:").data

/-- The literal of the content-terminating lookahead `(?=%% AIssist|$)`. -/
def blockLookahead : List Char := MARKER_START.data

/-! ## Timestamp (`insertTimestamp`, `src/main.ts` lines 463–474) -/

/-- The components that the JS `Date` accessors return in `insertTimestamp`.
`month0` is the value of `Date.prototype.getMonth()`, which is zero-based
(0 = January … 11 = December). -/
structure DateParts where
  year : Nat
  month0 : Nat
  day : Nat
  hour : Nat
  minute : Nat
  deriving Repr, DecidableEq

/-- JS `str.padStart(2, '0')`. -/
def padStart2 (s : String) : String :=
  String.mk (List.replicate (2 - s.data.length) '0' ++ s.data)

/-- `insertTimestamp`: formats the date parts exactly as the source does,
using the raw `getMonth()` value for the month field. -/
def insertTimestamp (d : DateParts) : String :=
  toString d.year ++ "-" ++ padStart2 (toString d.month0) ++ "-" ++
    padStart2 (toString d.day) ++ "T" ++ padStart2 (toString d.hour) ++ ":" ++
    padStart2 (toString d.minute)

/-! ## Turn encoders -/

/-- The `formattedPrompt` built by `parsePrompt` (both branches,
`src/main.ts` lines 71–72 and 108–110): marker line with role `user`,
timestamp and user emoji, then every content line prefixed with `"> "`,
then a trailing newline. -/
def encodeUserTurn (ts : String) (rawPrompt : String) : String :=
  "> " ++ MARKER_START ++ "; role:user; " ++ ts ++ " " ++ MARKER_END ++ USER_EMOJI ++ "\n" ++
    String.mk (List.intercalate ['\n'] ((splitNl rawPrompt.data).map (fun line => '>' :: ' ' :: line))) ++
    "\n"

/-- The `prefix`-plus-content reply built by `insertResponse`
(`src/main.ts` lines 427–428): note there is no timestamp and no
quote-per-line wrapping on this path. -/
def encodeAssistantReply (replyContent : String) : String :=
  "\n" ++ MARKER_START ++ "; role:assistant; " ++ MARKER_END ++ " " ++ replyContent

/-! ## Conversation decoder (`parseMessages`, `src/main.ts` lines 133–191)

The block regex is `/%% AIssist; role:(.*?);.*?%%(.*?)(?=%% AIssist|$)/gs`.
With the lazy quantifiers and the `s` flag its repeated `exec` amounts to:
find the leftmost `%% AIssist; role:`; the role is everything up to the
first `;` after it; skip to the first `%%` after that `;`; the content is
everything up to the next `%% AIssist` (or the end of the text), where the
next search resumes.  If the first `%% AIssist; role:` cannot be completed
to a full match (no later `;`, or no later `%%`), no later start position
can either, and scanning ends. -/

def scanAux : Nat → List Char → List (List Char × List Char)
  | 0, _ => []
  | fuel + 1, s =>
    match findSub blockHead s with
    | none => []
    | some i =>
      let rest1 := s.drop (i + blockHead.length)
      match findSub [';'] rest1 with
      | none => []
      | some j =>
        let role := rest1.take j
        let rest2 := rest1.drop (j + 1)
        match findSub ['%', '%'] rest2 with
        | none => []
        | some k =>
          let rest3 := rest2.drop (k + 2)
          match findSub blockLookahead rest3 with
          | none => [(role, rest3)]
          | some m => (role, rest3.take m) :: scanAux fuel (rest3.drop m)

/-- All raw `(role capture, content capture)` pairs of the block regex, in
document order.  `s.length + 1` steps of fuel suffice: every match consumes
at least the 17-character block head. -/
def scanBlocks (s : List Char) : List (List Char × List Char) :=
  scanAux (s.length + 1) s

/-- Per-block content cleanup of `parseMessages` (lines 153-166), in source
order: strip one leading `:technologist:`, trim, strip one leading and one
trailing `>` (the regex `/^>|>$/g`), trim again. -/
def cleanContent (c : List Char) : List Char :=
  let c1 := if startsWithL c USER_EMOJI.data then c.drop USER_EMOJI.data.length else c
  let c2 := jsTrim c1
  let c3 := if c2.head? = some '>' then c2.tail else c2
  let c4 := if c3.getLast? = some '>' then c3.dropLast else c3
  jsTrim c4

/-- A chat message as pushed by `parseMessages`. -/
structure OpenAIChatMessage where
  role : String
  content : String
  deriving Repr, DecidableEq

/-- The decoded turn sequence before windowing: one message per regex match,
role trimmed, content cleaned. -/
def decodeTurns (doc : String) : List OpenAIChatMessage :=
  (scanBlocks doc.data).map fun rc =>
    ⟨String.mk (jsTrim rc.1), String.mk (cleanContent rc.2)⟩

/-- JS `arr.slice(-k)` for `k > 0`: the last `min k len` elements. -/
def jsSliceLast {α : Type} (l : List α) (k : Nat) : List α :=
  l.drop (l.length - k)

/-- The windowing step of `parseMessages` (lines 172–188): if there are more
messages than `maxMessages`, keep all system messages followed by the last
`maxMessages - count(system)` non-system messages (none if that number is
not positive; the subtraction is over the integers, as in JS). -/
def windowMessages (messages : List OpenAIChatMessage) (maxMessages : Nat) :
    List OpenAIChatMessage :=
  if messages.length > maxMessages then
    let systemMessages := messages.filter fun m => m.role == "system"
    let remainingSlots : Int := (maxMessages : Int) - systemMessages.length
    let nonSystemMessages :=
      if remainingSlots > 0 then
        jsSliceLast (messages.filter fun m => m.role != "system") remainingSlots.toNat
      else []
    systemMessages ++ nonSystemMessages
  else messages

/-- `parseMessages(editorContent, maxMessages)`. -/
def parseMessages (editorContent : String) (maxMessages : Nat) :
    List OpenAIChatMessage :=
  windowMessages (decodeTurns editorContent) maxMessages

/-! ## Prompt extractor (`parsePrompt`, non-selection branch,
`src/main.ts` lines 77–121)

The code-block regex is `/```[^]*?```/g`: each match runs from a ``` to
the nearest ``` starting at least three characters later; every match is
replaced by a same-length run of spaces.  The delimiter is compiled as an
*unescaped* regex, `new RegExp(this.settings.promptHead, "g")`; a pattern
containing none of the ECMAScript special pattern characters
`^ $ \ . * + ? ( ) [ ] { } |` denotes exactly the literal string, and for
such delimiters the `while (exec)` loop is a literal substring search
recording the index of the last (non-overlapping, left-to-right) match —
which is what `lastMatchIndex` implements.  For a delimiter containing one
of those characters the compiled regex can match text the literal string
does not (e.g. the pattern `.` matches any character), so the model below
is exact only for special-character-free delimiters, and
`claim_C5_missing_delimiter` carries that restriction as a hypothesis. -/

/-- The characters the ECMAScript regex grammar treats specially in a
pattern; a pattern free of them matches exactly its literal text. -/
def isRegexMetaChar (c : Char) : Bool :=
  c = '^' || c = '$' || c = '\\' || c = '.' || c = '*' || c = '+' || c = '?' ||
  c = '(' || c = ')' || c = '[' || c = ']' || c = '{' || c = '}' || c = '|'

/-- The triple-backtick fence token. -/
def fenceTok : List Char := ['`', '`', '`']

/-- Leftmost complete fenced code region of `s`: its start index and total
length (opening fence, lazily-shortest body, closing fence). -/
def findFence (s : List Char) : Option (Nat × Nat) :=
  match findSub fenceTok s with
  | none => none
  | some i =>
    match findSub fenceTok (s.drop (i + 3)) with
    | none => none
    | some j => some (i, 3 + j + 3)

def stripCBAux : Nat → List Char → List Char
  | 0, s => s
  | fuel + 1, s =>
    match findFence s with
    | none => s
    | some (i, len) =>
      s.take i ++ List.replicate len ' ' ++ stripCBAux fuel (s.drop (i + len))

/-- `contentBeforeCursor.replace(codeBlockRegex, m => " ".repeat(m.length))`:
every fenced code region replaced by spaces of the same length. -/
def stripCodeBlocks (s : List Char) : List Char := stripCBAux s.length s

def fencedSpansAux : Nat → List Char → List (Nat × Nat)
  | 0, _ => []
  | fuel + 1, s =>
    match findFence s with
    | none => []
    | some (i, len) =>
      (i, len) :: (fencedSpansAux fuel (s.drop (i + len))).map
        (fun a => (a.1 + (i + len), a.2))

/-- The `(start, length)` spans of the fenced code regions that the
code-block regex matches in `s`. -/
def fencedSpans (s : List Char) : List (Nat × Nat) := fencedSpansAux s.length s

def lastMatchAux (d : List Char) : Nat → List Char → Nat → Option Nat
  | 0, _, _ => none
  | fuel + 1, s, base =>
    match findSub d s with
    | none => none
    | some i =>
      match lastMatchAux d fuel (s.drop (i + d.length)) (base + i + d.length) with
      | none => some (base + i)
      | some r => some r

/-- Index recorded by the `while ((match = promptHeadRegex.exec(...)))` loop:
the start of the last left-to-right non-overlapping match of `d` in `s`. -/
def lastMatchIndex (d s : List Char) : Option Nat :=
  lastMatchAux d (s.length + 1) s 0

/-- Result of the non-selection branch of `parsePrompt`:
`none` models the thrown `MissingPromptDelimiter` error (line 102), on which
path no editor mutation has happened; `some (newDoc, rawPrompt)` models the
successful `replaceRange` (line 119).  Positions are modelled as character
offsets (`posToOffset ∘ offsetToPos` clamps an out-of-range offset to the
document length, hence the `min`).  Note the source computes the replaced
range end as `promptStartIndex + formattedPrompt.length` — the length of the
*formatted* block, not of the raw prompt span. -/
def parsePromptNoSelection (promptHead doc : List Char) (cursorOff : Nat)
    (ts : String) : Option (List Char × List Char) :=
  let contentBeforeCursor := doc.take cursorOff
  let contentWithoutCodeBlocks := stripCodeBlocks contentBeforeCursor
  match lastMatchIndex promptHead contentWithoutCodeBlocks with
  | none => none
  | some promptStartIndex =>
    let rawPrompt := jsTrim (contentBeforeCursor.drop (promptStartIndex + promptHead.length))
    let formattedPrompt := (encodeUserTurn ts (String.mk rawPrompt)).data
    some (doc.take promptStartIndex ++ formattedPrompt ++
            doc.drop (min (promptStartIndex + formattedPrompt.length) doc.length),
          rawPrompt)

/-- The document after the non-selection branch of `parsePrompt`: unchanged
when the `MissingPromptDelimiter` error is thrown. -/
def docAfterPromptNoSelection (promptHead doc : List Char) (cursorOff : Nat)
    (ts : String) : List Char :=
  match parsePromptNoSelection promptHead doc cursorOff ts with
  | none => doc
  | some r => r.1

/-! ## Configuration resolver (`prepareOpenAIChatCompletionRequest`,
`src/main.ts` lines 193–300) -/

/-- A scalar frontmatter value. -/
inductive FmValue where
  | s (v : String)
  | q (v : ℚ)
  deriving Repr, DecidableEq

/-- The frontmatter fields read by the resolver (`undefined` = `none`). -/
structure Frontmatter where
  aissist_openai_chat_model : Option String := none
  aissist_openai_chat_max_tokens : Option ℚ := none
  aissist_openai_chat_temperature : Option ℚ := none
  aissist_openai_chat_system_message : Option String := none
  aissist_openai_chat_frequency_penalty : Option ℚ := none
  aissist_openai_chat_n : Option ℚ := none
  aissist_openai_chat_presence_penalty : Option ℚ := none
  aissist_openai_chat_top_p : Option ℚ := none
  deriving Repr, DecidableEq

/-- The stored settings read by the resolver, with `none` modelling the
`!== undefined` checks on `this.settings.*`. -/
structure StoredSettings where
  openAIChatModel : Option String := none
  openAIMaxTokens : Option ℚ := none
  openAIChatTemperature : Option ℚ := none
  deriving Repr, DecidableEq

/-- `DEFAULT_SETTINGS` of `src/settings.ts` (the fields the resolver uses). -/
structure DefaultSettings where
  openAIChatModel : String
  openAIMaxTokens : ℚ
  openAIChatFrequencyPenalty : ℚ
  openAIChatN : ℚ
  openAIChatPresencePenalty : ℚ
  openAIChatTemperature : ℚ
  openAIChatTopP : ℚ

def DEFAULT_SETTINGS : DefaultSettings where
  openAIChatModel := "gpt-4o"
  openAIMaxTokens := 1000
  openAIChatFrequencyPenalty := 0
  openAIChatN := 1
  openAIChatPresencePenalty := 0
  openAIChatTemperature := 7 / 10
  openAIChatTopP := 1

/-- `OPEN_AI_CHAT_SYSTEM_MESSAGE` (`src/main.ts` line 39). -/
def OPEN_AI_CHAT_SYSTEM_MESSAGE : String := "You are a helpful assistant"

/-- The request parameter set assembled by the resolver. -/
structure OpenAIChatRequestParams where
  model : String
  frequency_penalty : ℚ
  max_tokens : ℚ
  n : ℚ
  presence_penalty : ℚ
  temperature : ℚ
  top_p : ℚ
  system_message : String
  deriving Repr, DecidableEq

/-- One three-tier field resolution (frontmatter → stored setting → compiled
default), returning the value and whether `insertFrontmatterProperty` is
called (it is called exactly when the frontmatter tier was absent). -/
def resolveField3 {α : Type} (fmv : Option α) (stv : Option α) (dflt : α) :
    α × Bool :=
  match fmv with
  | some v => (v, false)
  | none =>
    match stv with
    | some s => (s, true)
    | none => (dflt, true)

/-- `prepareOpenAIChatCompletionRequest`: the resolved parameters together
with the ordered list of frontmatter writes it performs.  The fields
`frequency_penalty`, `n`, `presence_penalty`, `top_p` have no stored-setting
tier and are never written back; `system_message` falls back to the compiled
constant and is written back when absent. -/
def prepareOpenAIChatCompletionRequest (fm : Frontmatter) (st : StoredSettings) :
    OpenAIChatRequestParams × List (String × FmValue) :=
  let rModel := resolveField3 fm.aissist_openai_chat_model st.openAIChatModel
    DEFAULT_SETTINGS.openAIChatModel
  let rMax := resolveField3 fm.aissist_openai_chat_max_tokens st.openAIMaxTokens
    DEFAULT_SETTINGS.openAIMaxTokens
  let rTemp := resolveField3 fm.aissist_openai_chat_temperature st.openAIChatTemperature
    DEFAULT_SETTINGS.openAIChatTemperature
  let rSys := resolveField3 fm.aissist_openai_chat_system_message none
    OPEN_AI_CHAT_SYSTEM_MESSAGE
  let params : OpenAIChatRequestParams :=
    { model := rModel.1
      frequency_penalty := fm.aissist_openai_chat_frequency_penalty.getD
        DEFAULT_SETTINGS.openAIChatFrequencyPenalty
      max_tokens := rMax.1
      n := fm.aissist_openai_chat_n.getD DEFAULT_SETTINGS.openAIChatN
      presence_penalty := fm.aissist_openai_chat_presence_penalty.getD
        DEFAULT_SETTINGS.openAIChatPresencePenalty
      temperature := rTemp.1
      top_p := fm.aissist_openai_chat_top_p.getD DEFAULT_SETTINGS.openAIChatTopP
      system_message := rSys.1 }
  let writes :=
    (if rModel.2 then [("aissist_openai_chat_model", FmValue.s rModel.1)] else []) ++
    (if rMax.2 then [("aissist_openai_chat_max_tokens", FmValue.q rMax.1)] else []) ++
    (if rTemp.2 then [("aissist_openai_chat_temperature", FmValue.q rTemp.1)] else []) ++
    (if rSys.2 then [("aissist_openai_chat_system_message", FmValue.s rSys.1)] else [])
  (params, writes)

/-- Whether the frontmatter already holds a value for key `k` (only the
resolver-written keys matter). -/
def fmHasKey (fm : Frontmatter) (k : String) : Bool :=
  if k = "aissist_openai_chat_model" then fm.aissist_openai_chat_model.isSome
  else if k = "aissist_openai_chat_max_tokens" then fm.aissist_openai_chat_max_tokens.isSome
  else if k = "aissist_openai_chat_temperature" then fm.aissist_openai_chat_temperature.isSome
  else if k = "aissist_openai_chat_system_message" then fm.aissist_openai_chat_system_message.isSome
  else false

/-- Effect of one resolver write on the metadata, for re-resolution. -/
def applyWrite (fm : Frontmatter) (w : String × FmValue) : Frontmatter :=
  match w with
  | ("aissist_openai_chat_model", FmValue.s v) =>
    { fm with aissist_openai_chat_model := some v }
  | ("aissist_openai_chat_max_tokens", FmValue.q v) =>
    { fm with aissist_openai_chat_max_tokens := some v }
  | ("aissist_openai_chat_temperature", FmValue.q v) =>
    { fm with aissist_openai_chat_temperature := some v }
  | ("aissist_openai_chat_system_message", FmValue.s v) =>
    { fm with aissist_openai_chat_system_message := some v }
  | _ => fm

def applyWrites (fm : Frontmatter) (ws : List (String × FmValue)) : Frontmatter :=
  ws.foldl applyWrite fm

/-- All four resolver-written frontmatter fields are present. -/
def allResolverFieldsPresent (fm : Frontmatter) : Prop :=
  fm.aissist_openai_chat_model.isSome = true ∧
  fm.aissist_openai_chat_max_tokens.isSome = true ∧
  fm.aissist_openai_chat_temperature.isSome = true ∧
  fm.aissist_openai_chat_system_message.isSome = true

instance (fm : Frontmatter) : Decidable (allResolverFieldsPresent fm) := by
  unfold allResolverFieldsPresent; infer_instance

/-! ## Usage-counter merge (`insertResponse`, `src/main.ts` lines 443–452) -/

/-- `usage` of an `OpenAIChatCompletion`. -/
structure Usage where
  completion_tokens : Int
  prompt_tokens : Int
  total_tokens : Int
  deriving Repr, DecidableEq

/-- The `updateProperty` closure:
`noteFrontmatter && noteFrontmatter[prop] ? noteFrontmatter[prop] + tokens : tokens`.
A present value of `0` is falsy in JS, hence the explicit test. -/
def updatePropertyValue (prior : Option Int) (tokens : Int) : Int :=
  match prior with
  | some p => if p ≠ 0 then p + tokens else tokens
  | none => tokens

/-- The three usage writes performed after a successful reply insertion, in
source order, given the prior values of the three counter fields. -/
def insertResponseUsageWrites (priorCompletion priorPrompt priorTotal : Option Int)
    (u : Usage) : List (String × Int) :=
  [("aissist_openai_chat_completion_tokens",
      updatePropertyValue priorCompletion u.completion_tokens),
   ("aissist_openai_chat_prompt_tokens",
      updatePropertyValue priorPrompt u.prompt_tokens),
   ("aissist_openai_chat_total_tokens",
      updatePropertyValue priorTotal u.total_tokens)]

/-! ## System-message prepending (`requestOpenAIChatCompletion`,
`src/main.ts` lines 304–327) -/

/-- The message list actually placed in the request body: if
`requestParams.system_message` is truthy (a non-empty string) a system
message is unshifted onto the conversation, otherwise the conversation is
sent as-is.  The in-place `unshift` on the caller's array is modelled by the
returned list. -/
def requestOpenAIChatCompletionMessages (requestParams : OpenAIChatRequestParams)
    (conversation : List OpenAIChatMessage) : List OpenAIChatMessage :=
  if requestParams.system_message ≠ "" then
    ⟨"system", requestParams.system_message⟩ :: conversation
  else conversation

/-! ## Lemmas about substring search -/

theorem startsWithL_iff {s d : List Char} :
    startsWithL s d = true ↔ s.take d.length = d := by
  simp [startsWithL]

theorem occursAt_zero {d s : List Char} :
    occursAt d s 0 ↔ startsWithL s d = true := by
  simp [occursAt]

theorem occursAt_cons_succ {d : List Char} {c : Char} {t : List Char} {p : Nat} :
    occursAt d (c :: t) (p + 1) ↔ occursAt d t p := by
  simp [occursAt, List.drop_succ_cons]

theorem occursAt_nil {d : List Char} {p : Nat} (hd : d ≠ []) :
    ¬ occursAt d [] p := by
  simp [occursAt, startsWithL]
  intro h
  exact hd h

theorem findSub_some {d s : List Char} {i : Nat} (h : findSub d s = some i) :
    occursAt d s i := by
  induction s generalizing i with
  | nil =>
    unfold findSub at h
    split at h
    · cases h
      simpa [occursAt] using ‹startsWithL [] d = true›
    · cases h
  | cons c t ih =>
    unfold findSub at h
    split at h
    · cases h
      simpa [occursAt] using ‹startsWithL (c :: t) d = true›
    · match hi : findSub d t with
      | none => rw [hi] at h; cases h
      | some i' =>
        rw [hi] at h
        simp only [Option.map_some'] at h
        cases h
        exact occursAt_cons_succ.mpr (ih hi)

theorem findSub_minimal {d s : List Char} {i : Nat} (h : findSub d s = some i) :
    ∀ j, j < i → ¬ occursAt d s j := by
  induction s generalizing i with
  | nil =>
    unfold findSub at h
    split at h
    · cases h; omega
    · cases h
  | cons c t ih =>
    unfold findSub at h
    split at h
    · cases h; omega
    · match hi : findSub d t with
      | none => rw [hi] at h; cases h
      | some i' =>
        rw [hi] at h
        simp only [Option.map_some'] at h
        cases h
        intro j hj
        match j with
        | 0 =>
          rw [occursAt_zero]
          simpa using ‹¬ startsWithL (c :: t) d = true›
        | j' + 1 =>
          rw [occursAt_cons_succ]
          exact ih hi j' (by omega)

theorem findSub_none_iff {d s : List Char} :
    findSub d s = none ↔ ∀ p, ¬ occursAt d s p := by
  constructor
  · intro h p
    induction s generalizing p with
    | nil =>
      unfold findSub at h
      split at h
      · cases h
      · simp only [occursAt]
        simpa [List.drop_nil] using ‹¬ startsWithL [] d = true›
    | cons c t ih =>
      unfold findSub at h
      split at h
      · cases h
      · match p with
        | 0 =>
          rw [occursAt_zero]
          simpa using ‹¬ startsWithL (c :: t) d = true›
        | p' + 1 =>
          rw [occursAt_cons_succ]
          match hi : findSub d t with
          | none => exact ih hi p'
          | some i' => rw [hi] at h; simp at h
  · intro h
    match hf : findSub d s with
    | none => rfl
    | some i => exact absurd (findSub_some hf) (h i)

theorem findSub_eq_some {d s : List Char} {i : Nat} (h1 : occursAt d s i)
    (h2 : ∀ j, j < i → ¬ occursAt d s j) : findSub d s = some i := by
  induction s generalizing i with
  | nil =>
    have hi0 : i = 0 := by
      by_contra hne
      have : occursAt d [] 0 := by
        simp only [occursAt] at h1 ⊢
        simpa [List.drop_nil] using h1
      exact h2 0 (by omega) this
    subst hi0
    rw [occursAt_zero] at h1
    unfold findSub
    simp [h1]
  | cons c t ih =>
    match i with
    | 0 =>
      rw [occursAt_zero] at h1
      unfold findSub
      simp [h1]
    | i' + 1 =>
      have h0 : ¬ startsWithL (c :: t) d = true := by
        rw [← occursAt_zero]
        exact h2 0 (by omega)
      unfold findSub
      rw [if_neg h0, ih (occursAt_cons_succ.mp h1)
        (fun j hj => fun hc => h2 (j + 1) (by omega) (occursAt_cons_succ.mpr hc))]
      rfl

theorem occursAt_length_le {d s : List Char} {p : Nat} (hd : d ≠ [])
    (h : occursAt d s p) : p + d.length ≤ s.length := by
  rw [occursAt, startsWithL_iff] at h
  have hp : p ≤ s.length := by
    by_contra hp
    rw [List.drop_eq_nil_of_le (by omega)] at h
    simp at h
    exact hd h
  have := congrArg List.length h
  simp [List.length_take, List.length_drop] at this
  omega

theorem occursAt_getD {d s : List Char} {p : Nat} (h : occursAt d s p)
    {j : Nat} (hj : j < d.length) : s.getD (p + j) 'q' = d.getD j 'q' := by
  rw [occursAt, startsWithL_iff] at h
  conv_rhs => rw [← h]
  simp only [List.getD_eq_getElem?_getD]
  rw [List.getElem?_take, if_pos hj, List.getElem?_drop]

theorem occursAt_of_getD {d s : List Char} {p : Nat}
    (hlen : p + d.length ≤ s.length)
    (hpt : ∀ j, j < d.length → s.getD (p + j) 'q' = d.getD j 'q') :
    occursAt d s p := by
  rw [occursAt, startsWithL_iff]
  apply List.ext_getElem?
  intro j
  by_cases hj : j < d.length
  · rw [List.getElem?_take, if_pos hj, List.getElem?_drop]
    have h1 : p + j < s.length := by omega
    have h2 : j < d.length := hj
    rw [List.getElem?_eq_getElem h1, List.getElem?_eq_getElem h2]
    have hq := hpt j hj
    rw [List.getD_eq_getElem _ _ h1, List.getD_eq_getElem _ _ h2] at hq
    exact congrArg some hq
  · have hlt : ((s.drop p).take d.length).length = d.length := by
      simp [List.length_take, List.length_drop]
      omega
    rw [List.getElem?_eq_none (l := d) (by omega),
      List.getElem?_eq_none (by rw [hlt]; omega)]

theorem occursAt_mem {d s : List Char} {p : Nat} (h : occursAt d s p) :
    ∀ x, x ∈ d → x ∈ s := by
  rw [occursAt, startsWithL_iff] at h
  intro x hx
  rw [← h] at hx
  exact List.mem_of_mem_drop (List.mem_of_mem_take hx)

theorem no_occursAt_of_not_mem {d s : List Char} {x : Char} (hx : x ∈ d)
    (hs : x ∉ s) : ∀ p, ¬ occursAt d s p :=
  fun _ h => hs (occursAt_mem h x hx)

theorem occursAt_shift_right {d r : List Char} {q : Nat} (l : List Char)
    (h : occursAt d r q) : occursAt d (l ++ r) (l.length + q) := by
  simp only [occursAt] at h ⊢
  rw [← List.drop_drop, List.drop_left]
  exact h

theorem occursAt_unshift {d l r : List Char} {p : Nat} (hp : l.length ≤ p)
    (h : occursAt d (l ++ r) p) : occursAt d r (p - l.length) := by
  simp only [occursAt] at h ⊢
  have hdec : p = l.length + (p - l.length) := by omega
  rw [hdec, ← List.drop_drop, List.drop_left] at h
  exact h

theorem occursAt_head {d s : List Char} {p : Nat} (hd : d ≠ [])
    (h : occursAt d s p) : p < s.length ∧ s.getD p 'q' = d.getD 0 'q' := by
  have hlen := occursAt_length_le hd h
  have hdl : 0 < d.length := List.length_pos.mpr hd
  refine ⟨by omega, ?_⟩
  simpa using occursAt_getD h hdl

theorem getD_append_lt {l r : List Char} {p : Nat} (hp : p < l.length) :
    (l ++ r).getD p 'q' = l.getD p 'q' := by
  simp only [List.getD_eq_getElem?_getD]
  rw [List.getElem?_append, if_pos hp]

theorem no_occursAt_append_lt {d l r : List Char} {p : Nat} (hd : d ≠ [])
    (hx : ∀ x, x ∈ l → x ≠ d.getD 0 'q') (hp : p < l.length) :
    ¬ occursAt d (l ++ r) p := by
  intro h
  obtain ⟨hlt, hhead⟩ := occursAt_head hd h
  rw [getD_append_lt hp] at hhead
  have hmem : l.getD p 'q' ∈ l := by
    rw [List.getD_eq_getElem _ _ hp]
    exact List.getElem_mem _
  exact hx _ hmem hhead

theorem findSub_append_skip {d : List Char} (l r : List Char) (hd : d ≠ [])
    (hx : ∀ x, x ∈ l → x ≠ d.getD 0 'q') :
    findSub d (l ++ r) = (findSub d r).map (· + l.length) := by
  match hf : findSub d r with
  | none =>
    simp only [Option.map_none']
    rw [findSub_none_iff]
    intro p hp
    by_cases hpl : p < l.length
    · exact no_occursAt_append_lt hd hx hpl hp
    · exact (findSub_none_iff.mp hf) _ (occursAt_unshift (by omega) hp)
  | some q =>
    simp only [Option.map_some']
    apply findSub_eq_some
    · have := occursAt_shift_right l (findSub_some hf)
      rwa [Nat.add_comm] at this
    · intro j hj hocc
      by_cases hjl : j < l.length
      · exact no_occursAt_append_lt hd hx hjl hocc
      · exact findSub_minimal hf _ (by omega) (occursAt_unshift (by omega) hocc)

theorem findSub_append_self (d r : List Char) : findSub d (d ++ r) = some 0 := by
  apply findSub_eq_some
  · rw [occursAt_zero, startsWithL_iff, List.take_left]
  · omega

theorem drop_len_append {α : Type} {n : Nat} (l r : List α) (h : n = l.length) :
    (l ++ r).drop n = r := by
  subst h
  exact List.drop_left l r

theorem take_len_append {α : Type} {n : Nat} (l r : List α) (h : n = l.length) :
    (l ++ r).take n = l := by
  subst h
  exact List.take_left l r

/-! ## Lemmas about trimming -/

theorem dropWhile_append' (p : Char → Bool) (l₁ l₂ : List Char) :
    List.dropWhile p (l₁ ++ l₂) =
      if (List.dropWhile p l₁).isEmpty then List.dropWhile p l₂
      else List.dropWhile p l₁ ++ l₂ := by
  induction l₁ with
  | nil => simp
  | cons a t ih =>
    by_cases ha : p a
    · simpa [List.dropWhile, ha] using ih
    · simp [List.dropWhile, ha]

theorem dropWhile_idem (p : Char → Bool) (l : List Char) :
    List.dropWhile p (List.dropWhile p l) = List.dropWhile p l := by
  induction l with
  | nil => rfl
  | cons a t ih =>
    by_cases ha : p a
    · simpa [List.dropWhile, ha] using ih
    · simp [List.dropWhile, ha]

theorem dropWhile_eq_nil_mem {p : Char → Bool} {l : List Char}
    (h : List.dropWhile p l = []) : ∀ x, x ∈ l → p x = true := by
  induction l with
  | nil => intro x hx; cases hx
  | cons a t ih =>
    by_cases ha : p a
    · rw [List.dropWhile_cons_of_pos ha] at h
      intro x hx
      rcases List.mem_cons.mp hx with hx | hx
      · rwa [hx]
      · exact ih h x hx
    · rw [List.dropWhile_cons_of_neg ha] at h
      cases h

theorem head_dropWhile_neg {p : Char → Bool} {l t : List Char} {x : Char}
    (h : List.dropWhile p l = x :: t) : p x = false := by
  induction l with
  | nil => cases h
  | cons a t' ih =>
    by_cases ha : p a
    · rw [List.dropWhile_cons_of_pos ha] at h
      exact ih h
    · rw [List.dropWhile_cons_of_neg ha] at h
      cases h
      simpa using ha

theorem jsTrimL_cons_ws {a : Char} (l : List Char) (ha : isJsWs a = true) :
    jsTrimL (a :: l) = jsTrimL l := by
  simp [jsTrimL, List.dropWhile_cons_of_pos ha]

theorem jsTrimL_cons_neg {a : Char} (l : List Char) (ha : isJsWs a = false) :
    jsTrimL (a :: l) = a :: l := by
  simp [jsTrimL, List.dropWhile_cons, ha]

theorem jsTrimL_idem (l : List Char) : jsTrimL (jsTrimL l) = jsTrimL l :=
  dropWhile_idem isJsWs l

theorem jsTrimR_append_ws {c : Char} (l : List Char) (hc : isJsWs c = true) :
    jsTrimR (l ++ [c]) = jsTrimR l := by
  simp [jsTrimR, List.dropWhile_cons_of_pos hc]

theorem jsTrimR_cons (a : Char) (l : List Char) :
    jsTrimR (a :: l) =
      if jsTrimR l = [] then (if isJsWs a then [] else [a])
      else a :: jsTrimR l := by
  have hrev : (a :: l).reverse = l.reverse ++ [a] := by simp
  rw [jsTrimR, hrev, dropWhile_append' isJsWs]
  by_cases h : List.dropWhile isJsWs l.reverse = []
  · have hnil : jsTrimR l = [] := by simp [jsTrimR, h]
    rw [if_pos (by simp [h]), if_pos hnil]
    by_cases ha : isJsWs a
    · simp [List.dropWhile_cons_of_pos ha, ha]
    · simp [List.dropWhile_cons_of_neg ha, ha]
  · have hnnil : jsTrimR l ≠ [] := by simp [jsTrimR, h]
    rw [if_neg (by simpa using h), if_neg hnnil]
    simp [jsTrimR]

theorem jsTrimR_cons_neg {a : Char} (l : List Char) (ha : isJsWs a = false) :
    jsTrimR (a :: l) = a :: jsTrimR l := by
  rw [jsTrimR_cons]
  by_cases h : jsTrimR l = [] <;> simp [h, ha]

theorem jsTrimR_cons_ws {a : Char} (l : List Char) (ha : isJsWs a = true) :
    jsTrimR (a :: l) = if jsTrimR l = [] then [] else a :: jsTrimR l := by
  rw [jsTrimR_cons]
  by_cases h : jsTrimR l = [] <;> simp [h, ha]

theorem jsTrimR_idem (l : List Char) : jsTrimR (jsTrimR l) = jsTrimR l := by
  simp [jsTrimR, dropWhile_idem]

theorem jsTrim_comm (l : List Char) : jsTrimL (jsTrimR l) = jsTrimR (jsTrimL l) := by
  induction l with
  | nil => rfl
  | cons a t ih =>
    by_cases ha : isJsWs a
    · rw [jsTrimL_cons_ws t ha, jsTrimR_cons_ws t ha]
      by_cases h : jsTrimR t = []
      · rw [if_pos h]
        rw [h] at ih
        simpa [jsTrimL] using ih.symm
      · rw [if_neg h, jsTrimL_cons_ws _ ha, ih]
    · have ha' : isJsWs a = false := by simpa using ha
      rw [jsTrimL_cons_neg t ha', jsTrimR_cons_neg t ha',
        jsTrimL_cons_neg (jsTrimR t) ha']

theorem jsTrim_eq_LR (l : List Char) : jsTrim l = jsTrimL (jsTrimR l) := by
  rw [jsTrim, jsTrim_comm]

theorem jsTrim_of_trimR_nil {l : List Char} (h : jsTrimR l = []) : jsTrim l = [] := by
  rw [jsTrim_eq_LR, h]
  rfl

theorem jsTrim_cons_ws {a : Char} (l : List Char) (ha : isJsWs a = true) :
    jsTrim (a :: l) = jsTrim l := by
  rw [jsTrim, jsTrimL_cons_ws l ha, jsTrim]

theorem jsTrim_idem (l : List Char) : jsTrim (jsTrim l) = jsTrim l := by
  rw [jsTrim, jsTrim, jsTrim_comm (jsTrimL l), jsTrimR_idem, jsTrimL_idem]

theorem jsTrimR_last_not_ws {l : List Char} {x : Char}
    (h : (jsTrimR l).getLast? = some x) : isJsWs x = false := by
  have : (jsTrimR l).getLast? = (l.reverse.dropWhile isJsWs).head? := by
    rw [jsTrimR, List.getLast?_reverse]
  rw [this] at h
  match hh : List.dropWhile isJsWs l.reverse with
  | [] => rw [hh] at h; cases h
  | y :: t =>
    rw [hh] at h
    simp only [List.head?_cons, Option.some.injEq] at h
    subst h
    exact head_dropWhile_neg hh

theorem getLast_mem' {l : List Char} {x : Char} (h : l.getLast? = some x) :
    x ∈ l := by
  induction l with
  | nil => cases h
  | cons a t ih =>
    match t with
    | [] =>
      simp only [List.getLast?_singleton, Option.some.injEq] at h
      simp [h]
    | b :: t' =>
      rw [List.getLast?_cons_cons] at h
      exact List.mem_cons_of_mem a (ih h)

theorem jsTrim_getLast (l : List Char) :
    (jsTrim l).getLast? = (jsTrimR l).getLast? := by
  rw [jsTrim_eq_LR]
  match h : jsTrimR l with
  | [] => simp [jsTrimL]
  | y :: t =>
    match hL : jsTrimL (y :: t) with
    | [] =>
      exfalso
      have hall := dropWhile_eq_nil_mem
        (show List.dropWhile isJsWs (y :: t) = [] from hL)
      match hlast : (y :: t).getLast? with
      | none => simp at hlast
      | some z =>
        have hmem := getLast_mem' hlast
        have : isJsWs z = false := by
          have := jsTrimR_last_not_ws (l := l) (by rw [h, hlast])
          exact this
        rw [hall z hmem] at this
        cases this
    | c :: t' =>
      have hsuf : ∃ pre, pre ++ (c :: t') = y :: t := by
        have : jsTrimL (y :: t) <:+ (y :: t) := List.dropWhile_suffix isJsWs
        rw [hL] at this
        exact this
      obtain ⟨pre, hpre⟩ := hsuf
      rw [← hpre]
      exact (List.getLast?_append_of_ne_nil pre (by simp)).symm

/-- If the right-trimmed list is nonempty, a whitespace head may be peeled
off without affecting it being nonempty, and `getLast?` agrees. -/
theorem jsTrimR_ws_cons_getLast {a : Char} {l : List Char} (ha : isJsWs a = true)
    (h : jsTrimR l ≠ []) :
    (jsTrimR (a :: l)).getLast? = (jsTrimR l).getLast? := by
  rw [jsTrimR_cons_ws l ha, if_neg h]
  match hl : jsTrimR l with
  | [] => exact absurd hl h
  | y :: t => rw [List.getLast?_cons_cons]

/-! ## The scanner on a single well-formed block -/

theorem splitNl_no_nl {l : List Char} (h : '\n' ∉ l) : splitNl l = [l] := by
  induction l with
  | nil => rfl
  | cons a t ih =>
    have ha : a ≠ '\n' := fun hc => h (by simp [hc])
    have ht : '\n' ∉ t := fun hc => h (List.mem_cons_of_mem a hc)
    rw [splitNl, if_neg ha, ih ht]

theorem intercalate_single (s x : List Char) : List.intercalate s [x] = x := by
  simp [List.intercalate]

/-- One step of the scanner on a document of the shape
`A ++ "%% AIssist; role:" ++ role ++ ";" ++ gap ++ "%%" ++ C` where the
leading junk `A` and the gap contain no `%`, the role contains no `;`, and
the content `C` contains no `%% AIssist`: exactly one block is matched,
with the given role and content captures. -/
theorem scanAux_single (n : Nat) (A role gap C : List Char)
    (hA : ∀ x, x ∈ A → x ≠ '%')
    (hrole : ∀ x, x ∈ role → x ≠ ';')
    (hgap : ∀ x, x ∈ gap → x ≠ '%')
    (hC : ∀ p, ¬ occursAt blockLookahead C p) :
    scanAux (n + 1)
      (A ++ (blockHead ++ (role ++ (';' :: (gap ++ ('%' :: '%' :: C)))))) =
      [(role, C)] := by
  set R1 : List Char := role ++ (';' :: (gap ++ ('%' :: '%' :: C))) with hR1
  set R2 : List Char := gap ++ ('%' :: '%' :: C) with hR2
  have h1 : findSub blockHead (A ++ (blockHead ++ R1)) = some A.length := by
    rw [findSub_append_skip A _ (by decide)
      (by intro x hx; rw [show blockHead.getD 0 'q' = '%' from rfl]; exact hA x hx)]
    rw [findSub_append_self]
    simp
  have hd1 : (A ++ (blockHead ++ R1)).drop (A.length + blockHead.length) = R1 := by
    rw [← List.append_assoc]
    exact drop_len_append _ _ (by simp)
  have h2 : findSub [';'] R1 = some role.length := by
    rw [hR1, show role ++ (';' :: R2) = role ++ ([';'] ++ R2) by simp,
      findSub_append_skip role _ (by decide)
        (by intro x hx; rw [show ([';'] : List Char).getD 0 'q' = ';' from rfl]
            exact hrole x hx),
      findSub_append_self]
    simp
  have ht : R1.take role.length = role := by
    rw [hR1, take_len_append _ _ rfl]
  have hd2 : R1.drop (role.length + 1) = R2 := by
    rw [hR1, show role ++ (';' :: R2) = (role ++ [';']) ++ R2 by simp]
    exact drop_len_append _ _ (by simp)
  have h3 : findSub ['%', '%'] R2 = some gap.length := by
    rw [hR2, show gap ++ ('%' :: '%' :: C) = gap ++ (['%', '%'] ++ C) by simp,
      findSub_append_skip gap _ (by decide)
        (by intro x hx; rw [show (['%', '%'] : List Char).getD 0 'q' = '%' from rfl]
            exact hgap x hx),
      findSub_append_self]
    simp
  have hd3 : R2.drop (gap.length + 2) = C := by
    rw [hR2, show gap ++ ('%' :: '%' :: C) = (gap ++ ['%', '%']) ++ C by simp]
    exact drop_len_append _ _ (by simp)
  have h4 : findSub blockLookahead C = none := findSub_none_iff.mpr hC
  simp only [scanAux, h1, hd1, h2, ht, hd2, h3, hd3, h4]

theorem scanBlocks_single (A role gap C : List Char)
    (hA : ∀ x, x ∈ A → x ≠ '%')
    (hrole : ∀ x, x ∈ role → x ≠ ';')
    (hgap : ∀ x, x ∈ gap → x ≠ '%')
    (hC : ∀ p, ¬ occursAt blockLookahead C p) :
    scanBlocks
      (A ++ (blockHead ++ (role ++ (';' :: (gap ++ ('%' :: '%' :: C)))))) =
      [(role, C)] :=
  scanAux_single _ A role gap C hA hrole hgap hC

/-! ## Cleanup of the content captures produced by the two encoders -/

theorem jsTrim_trimR (l : List Char) : jsTrim (jsTrimR l) = jsTrim l := by
  rw [jsTrim, jsTrim_comm, jsTrimR_idem, ← jsTrim]

/-- What the decoder's cleanup does to the raw content capture of an encoded
single-line user turn: the emoji, quote prefix and trailing newline are
removed and the result is exactly the trimmed content — provided the trimmed
content does not end in `>` (the global `/^>|>$/g` replace would also eat
that character). -/
theorem cleanContent_user (c : List Char)
    (hlast : (jsTrim c).getLast? ≠ some '>') :
    cleanContent (USER_EMOJI.data ++ ('\n' :: '>' :: ' ' :: (c ++ ['\n']))) =
      jsTrim c := by
  have hc1 : startsWithL (USER_EMOJI.data ++ ('\n' :: '>' :: ' ' :: (c ++ ['\n'])))
      USER_EMOJI.data = true := by
    rw [startsWithL_iff, take_len_append _ _ rfl]
  have hdrop : (USER_EMOJI.data ++ ('\n' :: '>' :: ' ' :: (c ++ ['\n']))).drop
      USER_EMOJI.data.length = '\n' :: '>' :: ' ' :: (c ++ ['\n']) :=
    drop_len_append _ _ rfl
  have hc2 : jsTrim ('\n' :: '>' :: ' ' :: (c ++ ['\n'])) =
      '>' :: jsTrimR (' ' :: c) := by
    rw [jsTrim_cons_ws _ (by decide), jsTrim, jsTrimL_cons_neg _ (by decide),
      jsTrimR_cons_neg _ (by decide)]
    rw [show (' ' :: (c ++ ['\n'])) = (' ' :: c) ++ ['\n'] by simp,
      jsTrimR_append_ws _ (by decide)]
  simp only [cleanContent, hc1, if_pos, hdrop, hc2]
  by_cases h : jsTrimR c = []
  · rw [jsTrimR_cons_ws c (by decide), if_pos h, jsTrim_of_trimR_nil h]
    rfl
  · rw [jsTrimR_cons_ws c (by decide), if_neg h]
    have hget : (' ' :: jsTrimR c).getLast? = (jsTrimR c).getLast? := by
      match hl : jsTrimR c with
      | [] => exact absurd hl h
      | y :: t => rw [List.getLast?_cons_cons]
    have hne : (' ' :: jsTrimR c).getLast? ≠ some '>' := by
      rw [hget, ← jsTrim_getLast]
      exact hlast
    have hc3 : (if (('>' :: (' ' :: jsTrimR c)).head? = some '>') then
        ('>' :: (' ' :: jsTrimR c)).tail else ('>' :: (' ' :: jsTrimR c))) =
        ' ' :: jsTrimR c := by simp
    rw [hc3, if_neg hne, jsTrim_cons_ws _ (by decide), jsTrim_trimR]

/-- What the decoder's cleanup does to the raw content capture of an encoded
assistant reply: just a trim — provided the trimmed content neither starts
nor ends with `>` (which `/^>|>$/g` would eat). -/
theorem cleanContent_assistant (c : List Char)
    (hhead : (jsTrim c).head? ≠ some '>')
    (hlast : (jsTrim c).getLast? ≠ some '>') :
    cleanContent (' ' :: c) = jsTrim c := by
  have hc1 : startsWithL (' ' :: c) USER_EMOJI.data = false := by
    by_contra hb
    rw [Bool.not_eq_false, startsWithL_iff,
      show USER_EMOJI.data.length = 13 + 1 from rfl, List.take_succ_cons,
      show USER_EMOJI.data = ':' :: "technologist:".data from rfl] at hb
    have : ' ' = ':' := (List.cons.injEq _ _ _ _).mp hb |>.1
    cases this
  unfold cleanContent
  simp only [hc1, Bool.false_eq_true, if_false]
  rw [jsTrim_cons_ws c (by decide : isJsWs ' ' = true), if_neg hhead,
    if_neg hlast, jsTrim_idem]

theorem occursAt_append_left {d l r : List Char} {q : Nat}
    (h : occursAt d (l ++ r) q) (hle : q + d.length ≤ l.length) :
    occursAt d l q := by
  apply occursAt_of_getD hle
  intro j hj
  have h1 := occursAt_getD h hj
  rwa [getD_append_lt (by omega)] at h1

/-- The content capture of an encoded user turn contains no `%% AIssist`,
provided the raw content is a single line not containing it. -/
theorem no_occ_lookahead_user (c : List Char)
    (hocc : ∀ p, ¬ occursAt blockLookahead c p) :
    ∀ p, ¬ occursAt blockLookahead
      (USER_EMOJI.data ++ ('\n' :: '>' :: ' ' :: (c ++ ['\n']))) p := by
  have hnl10 : ∀ q, ¬ occursAt blockLookahead (c ++ ['\n']) q := by
    intro q hq
    have hlen := occursAt_length_le (by decide) hq
    simp only [List.length_append, List.length_singleton] at hlen
    by_cases hq10 : q + blockLookahead.length ≤ c.length
    · exact hocc q (occursAt_append_left hq hq10)
    · have hq9 : q + 9 = c.length := by
        have : blockLookahead.length = 10 := rfl
        omega
      have h1 := occursAt_getD hq (j := 9) (by decide)
      have h2 : (c ++ ['\n']).getD (q + 9) 'q' = '\n' := by
        rw [hq9, List.getD_eq_getElem?_getD, List.getElem?_append]
        simp
      rw [h2] at h1
      have : blockLookahead.getD 9 'q' = 't' := rfl
      rw [this] at h1
      cases h1
  intro p hp
  rw [show USER_EMOJI.data ++ ('\n' :: '>' :: ' ' :: (c ++ ['\n'])) =
    (USER_EMOJI.data ++ ['\n', '>', ' ']) ++ (c ++ ['\n']) by simp] at hp
  by_cases hplt : p < (USER_EMOJI.data ++ ['\n', '>', ' ']).length
  · exact no_occursAt_append_lt (by decide)
      (by decide : ∀ x, x ∈ USER_EMOJI.data ++ ['\n', '>', ' '] →
        x ≠ blockLookahead.getD 0 'q') hplt hp
  · exact hnl10 _ (occursAt_unshift (by omega) hp)

/-- The content capture of an encoded assistant reply contains no
`%% AIssist`, provided the reply itself does not. -/
theorem no_occ_lookahead_assistant (c : List Char)
    (hocc : ∀ p, ¬ occursAt blockLookahead c p) :
    ∀ p, ¬ occursAt blockLookahead (' ' :: c) p := by
  intro p hp
  match p with
  | 0 =>
    have := (occursAt_head (by decide) hp).2
    simp only [List.getD_cons_zero] at this
    rw [show blockLookahead.getD 0 'q' = '%' from rfl] at this
    cases this
  | p' + 1 => exact hocc p' (occursAt_cons_succ.mp hp)

/-- `.data` of an encoded user turn with single-line content, decomposed
into the shape consumed by the scanner. -/
theorem encodeUserTurn_data (ts c : String) (hnl : '\n' ∉ c.data) :
    (encodeUserTurn ts c).data =
      "> ".data ++ (blockHead ++ ("user".data ++ (';' ::
        ((' ' :: (ts.data ++ [' '])) ++ ('%' :: '%' ::
          (USER_EMOJI.data ++ ('\n' :: '>' :: ' ' :: (c.data ++ ['\n'])))))))) := by
  simp only [encodeUserTurn, splitNl_no_nl hnl, List.map_cons, List.map_nil,
    intercalate_single, String.data_append]
  simp [blockHead, USER_EMOJI, MARKER_START, MARKER_END, String.data_append]

/-- `.data` of an encoded assistant reply, decomposed into the shape
consumed by the scanner. -/
theorem encodeAssistantReply_data (c : String) :
    (encodeAssistantReply c).data =
      "\n".data ++ (blockHead ++ ("assistant".data ++ (';' ::
        ([' '] ++ ('%' :: '%' :: (' ' :: c.data)))))) := by
  simp [encodeAssistantReply, blockHead, USER_EMOJI, MARKER_START, MARKER_END,
    String.data_append]

/-- Decoding a document that contains exactly one encoded single-line user
turn. -/
theorem decodeTurns_user (ts c : String)
    (hts : ∀ x, x ∈ ts.data → x ≠ '%')
    (hnl : '\n' ∉ c.data)
    (hocc : ∀ p, ¬ occursAt blockLookahead c.data p)
    (hlast : (jsTrim c.data).getLast? ≠ some '>') :
    decodeTurns (encodeUserTurn ts c) = [⟨"user", String.mk (jsTrim c.data)⟩] := by
  unfold decodeTurns
  rw [encodeUserTurn_data ts c hnl]
  rw [scanBlocks_single _ _ _ _
    (by decide)
    (by decide)
    (by
      intro x hx
      rcases List.mem_cons.mp hx with hx | hx
      · subst hx; decide
      · rcases List.mem_append.mp hx with hx | hx
        · exact hts x hx
        · simp only [List.mem_singleton] at hx; subst hx; decide)
    (no_occ_lookahead_user c.data hocc)]
  rw [List.map_cons, List.map_nil, cleanContent_user c.data hlast]
  rfl

/-- Decoding a document that contains exactly one encoded assistant reply. -/
theorem decodeTurns_assistant (c : String)
    (hocc : ∀ p, ¬ occursAt blockLookahead c.data p)
    (hhead : (jsTrim c.data).head? ≠ some '>')
    (hlast : (jsTrim c.data).getLast? ≠ some '>') :
    decodeTurns (encodeAssistantReply c) =
      [⟨"assistant", String.mk (jsTrim c.data)⟩] := by
  unfold decodeTurns
  rw [encodeAssistantReply_data c]
  rw [scanBlocks_single _ _ _ _
    (by decide)
    (by decide)
    (by decide)
    (no_occ_lookahead_assistant c.data hocc)]
  rw [List.map_cons, List.map_nil, cleanContent_assistant c.data hhead hlast]
  rfl

/-! ## Claim C1: codec round trip -/

/-- **C1, counterexample.**  The round-trip claim fails as stated: encoding
the user turn with content `"a\nb"` (two lines) and decoding the document
containing only that block yields content `"a\n> b"` — the quote prefix of
the second line survives the cleanup — which differs from the original
content trimmed (`"a\nb"`). -/
theorem claim_C1_counterexample :
    decodeTurns (encodeUserTurn "2026-00-15T10:30" "a\nb") =
      [⟨"user", "a\n> b"⟩] ∧
    decodeTurns (encodeUserTurn "2026-00-15T10:30" "a\nb") ≠
      [⟨"user", "a\nb"⟩] := by
  constructor
  · rfl
  · decide

/-- **C1, amended.**  Round trip of the codec, restricted as the code
forces.  User turns: for any timestamp not containing `%` and any
*single-line* content that does not contain the substring `%% AIssist` and
whose trimmed form does not end in `>`, encoding then decoding yields
exactly one turn with role `user` and the trimmed content.  Assistant
replies (the only other encoder in the code): for any content that does not
contain `%% AIssist` and whose trimmed form neither starts nor ends with
`>`, encoding then decoding yields exactly one turn with role `assistant`
and the trimmed content.  In both cases the decoded content carries no
marker syntax, quote prefix or role glyph. -/
theorem claim_C1_roundtrip (ts c : String) :
    ((∀ x, x ∈ ts.data → x ≠ '%') → '\n' ∉ c.data →
      (∀ p, ¬ occursAt blockLookahead c.data p) →
      (jsTrim c.data).getLast? ≠ some '>' →
      decodeTurns (encodeUserTurn ts c) = [⟨"user", String.mk (jsTrim c.data)⟩]) ∧
    ((∀ p, ¬ occursAt blockLookahead c.data p) →
      (jsTrim c.data).head? ≠ some '>' →
      (jsTrim c.data).getLast? ≠ some '>' →
      decodeTurns (encodeAssistantReply c) =
        [⟨"assistant", String.mk (jsTrim c.data)⟩]) :=
  ⟨fun h1 h2 h3 h4 => decodeTurns_user ts c h1 h2 h3 h4,
   fun h1 h2 h3 => decodeTurns_assistant c h1 h2 h3⟩

/-- Witness for `claim_C1_roundtrip` at a concrete timestamp and content. -/
theorem claim_C1_roundtrip_witness :
    decodeTurns (encodeUserTurn "2026-00-15T10:30" "hello") =
      [⟨"user", String.mk (jsTrim "hello".data)⟩] ∧
    decodeTurns (encodeAssistantReply "hello") =
      [⟨"assistant", String.mk (jsTrim "hello".data)⟩] := by
  have h := claim_C1_roundtrip "2026-00-15T10:30" "hello"
  refine ⟨h.1 (by decide) (by decide) ?_ (by decide), h.2 ?_ (by decide) (by decide)⟩
  · exact no_occursAt_of_not_mem (x := '%') (by decide) (by decide)
  · exact no_occursAt_of_not_mem (x := '%') (by decide) (by decide)

/-! ## Claim C4: blocks with unknown roles -/

/-- **C4, counterexample.**  A scanned block whose role field value is
`banana` — not one of `system`, `user`, `assistant` — is *not* excluded:
`parseMessages` returns a turn for it, with `banana` as the role. -/
theorem claim_C4_counterexample :
    parseMessages "%% AIssist; role:banana; 2026-01-01T00:00 %% hello" 10 =
      [⟨"banana", "hello"⟩] ∧
    parseMessages "%% AIssist; role:banana; 2026-01-01T00:00 %% hello" 10 ≠
      [] := by
  constructor
  · rfl
  · decide

/-- **C4, amended.**  A scanned block is pushed onto the decoded sequence
whatever its role field value is — the decoder never compares the role
against the three known values, so a block with an unknown role contributes
exactly one turn (with the captured role, trimmed) rather than none.  No
error is raised: `parseMessages` is total. -/
theorem claim_C4_role_not_filtered (role gap C : List Char) (M : Nat)
    (hrole : ∀ x, x ∈ role → x ≠ ';')
    (hgap : ∀ x, x ∈ gap → x ≠ '%')
    (hC : ∀ p, ¬ occursAt blockLookahead C p)
    (hM : 1 ≤ M) :
    parseMessages
      (String.mk (blockHead ++ (role ++ (';' :: (gap ++ ('%' :: '%' :: C)))))) M =
      [⟨String.mk (jsTrim role), String.mk (cleanContent C)⟩] := by
  unfold parseMessages decodeTurns
  have hdata : (String.mk (blockHead ++ (role ++ (';' :: (gap ++ ('%' :: '%' :: C)))))).data
      = [] ++ (blockHead ++ (role ++ (';' :: (gap ++ ('%' :: '%' :: C))))) := by
    simp
  rw [hdata, scanBlocks_single [] role gap C (by intro x hx; cases hx) hrole hgap hC,
    List.map_cons, List.map_nil]
  unfold windowMessages
  rw [if_neg (by simp; omega)]

/-- Witness for `claim_C4_role_not_filtered` with the role `banana`. -/
theorem claim_C4_role_not_filtered_witness :
    parseMessages
      (String.mk (blockHead ++ ("banana".data ++ (';' ::
        ([' '] ++ ('%' :: '%' :: (' ' :: "hello".data))))))) 10 =
      [⟨"banana", "hello"⟩] := by
  have h := claim_C4_role_not_filtered "banana".data [' '] (' ' :: "hello".data) 10
    (by decide) (by decide)
    (no_occursAt_of_not_mem (x := '%') (by decide) (by decide)) (by omega)
  exact h.trans (by decide)

/-! ## Claims C2 and C3: window policy -/

theorem length_filter_partition (p : OpenAIChatMessage → Bool)
    (l : List OpenAIChatMessage) :
    (l.filter p).length + (l.filter fun x => !(p x)).length = l.length := by
  induction l with
  | nil => rfl
  | cons a t ih =>
    by_cases ha : p a <;> simp [List.filter_cons, ha] <;> omega

theorem filter_ne_eq_filter_not (l : List OpenAIChatMessage) :
    (l.filter fun m => m.role != "system") =
      (l.filter fun x => !(x.role == "system")) := by
  simp [bne]

/-- **C2.**  Headroom case of the window policy: when the decoded sequence
is longer than the configured maximum `M` and holds `S ≤ M` system turns,
`parseMessages` returns the `S` system turns in original order followed by
the most recent `M − S` non-system turns in original order, for a total of
exactly `M` turns. -/
theorem claim_C2_window_headroom (doc : String) (M : Nat)
    (h1 : (decodeTurns doc).length > M)
    (h2 : ((decodeTurns doc).filter fun m => m.role == "system").length ≤ M) :
    parseMessages doc M =
      ((decodeTurns doc).filter fun m => m.role == "system") ++
        ((decodeTurns doc).filter fun m => m.role != "system").drop
          (((decodeTurns doc).filter fun m => m.role != "system").length -
            (M - ((decodeTurns doc).filter fun m => m.role == "system").length)) ∧
    (parseMessages doc M).length = M := by
  have hpart :
      ((decodeTurns doc).filter fun m => m.role == "system").length +
        ((decodeTurns doc).filter fun m => m.role != "system").length =
        (decodeTurns doc).length := by
    rw [filter_ne_eq_filter_not]
    exact length_filter_partition _ _
  set msgs := decodeTurns doc with hmsgs
  set sys := msgs.filter fun m => m.role == "system" with hsys
  set nonsys := msgs.filter fun m => m.role != "system" with hnonsys
  have heq : parseMessages doc M =
      sys ++ nonsys.drop (nonsys.length - (M - sys.length)) := by
    unfold parseMessages windowMessages
    rw [← hmsgs, ← hsys, ← hnonsys, if_pos h1]
    show sys ++ (if ((M : Int) - (sys.length : Int) > 0) then
        jsSliceLast nonsys ((M : Int) - (sys.length : Int)).toNat else []) =
      sys ++ nonsys.drop (nonsys.length - (M - sys.length))
    by_cases hpos : sys.length < M
    · rw [if_pos (by omega), jsSliceLast,
        show ((M : Int) - (sys.length : Int)).toNat = M - sys.length by omega]
    · rw [if_neg (by omega),
        show M - sys.length = 0 by omega, Nat.sub_zero, List.drop_length]
  refine ⟨heq, ?_⟩
  rw [heq]
  simp only [List.length_append, List.length_drop]
  omega

/-- A document decoding to one system turn and two later user turns, used to
instantiate the window-policy theorems. -/
def windowExampleDoc : String :=
  "%% AIssist; role:system; x %% alpha" ++
  "%% AIssist; role:user; x %% beta" ++
  "%% AIssist; role:user; x %% gamma"

/-- Witness for `claim_C2_window_headroom`: three decoded turns, one of them
system, with a maximum of two. -/
theorem claim_C2_window_headroom_witness :
    parseMessages windowExampleDoc 2 = [⟨"system", "alpha"⟩, ⟨"user", "gamma"⟩] ∧
    (parseMessages windowExampleDoc 2).length = 2 := by
  have h := claim_C2_window_headroom windowExampleDoc 2 (by decide) (by decide)
  exact ⟨h.1.trans (by decide), h.2⟩

/-- A document decoding to two system turns and one later user turn. -/
def oversubscribedExampleDoc : String :=
  "%% AIssist; role:system; x %% alpha" ++
  "%% AIssist; role:system; x %% beta" ++
  "%% AIssist; role:user; x %% gamma"

/-- **C3, counterexample.**  With three decoded turns of which `S = 2` are
system turns and a maximum of `M = 1 < S`, `parseMessages` returns *both*
system turns — not, as claimed, only the first `M` of them. -/
theorem claim_C3_counterexample :
    parseMessages oversubscribedExampleDoc 1 =
      [⟨"system", "alpha"⟩, ⟨"system", "beta"⟩] ∧
    parseMessages oversubscribedExampleDoc 1 ≠ [⟨"system", "alpha"⟩] := by
  constructor
  · rfl
  · decide

/-- **C3, amended.**  Oversubscribed case of the window policy: when the
decoded sequence is longer than the configured maximum `M` and holds more
than `M` system turns, `parseMessages` returns *all* system turns in
original order (not only the first `M`) and no non-system turns. -/
theorem claim_C3_window_oversubscribed (doc : String) (M : Nat)
    (h1 : (decodeTurns doc).length > M)
    (h2 : M < ((decodeTurns doc).filter fun m => m.role == "system").length) :
    parseMessages doc M = (decodeTurns doc).filter fun m => m.role == "system" := by
  unfold parseMessages windowMessages
  rw [if_pos h1]
  set sys := (decodeTurns doc).filter fun m => m.role == "system" with hsys
  set nonsys := (decodeTurns doc).filter fun m => m.role != "system" with hnonsys
  show sys ++ (if ((M : Int) - (sys.length : Int) > 0) then
      jsSliceLast nonsys ((M : Int) - (sys.length : Int)).toNat else []) = sys
  rw [if_neg (by omega), List.append_nil]

/-- Witness for `claim_C3_window_oversubscribed`. -/
theorem claim_C3_window_oversubscribed_witness :
    parseMessages oversubscribedExampleDoc 1 =
      [⟨"system", "alpha"⟩, ⟨"system", "beta"⟩] := by
  have h := claim_C3_window_oversubscribed oversubscribedExampleDoc 1
    (by decide) (by decide)
  exact h.trans (by decide)

/-! ## Claim C5: missing delimiter when all occurrences are fenced

The key fact: `stripCodeBlocks` keeps the length and every character outside
the fenced spans, and writes `' '` at every position inside them. -/

/-- Position `k` lies inside one of the spans. -/
def insideSpans (spans : List (Nat × Nat)) (k : Nat) : Bool :=
  spans.any fun pr => decide (pr.1 ≤ k) && decide (k < pr.1 + pr.2)

theorem findFence_bounds {s : List Char} {i len : Nat}
    (h : findFence s = some (i, len)) : i + len ≤ s.length ∧ 6 ≤ len := by
  unfold findFence at h
  match h1 : findSub fenceTok s with
  | none => rw [h1] at h; cases h
  | some i' =>
    simp only [h1] at h
    match h2 : findSub fenceTok (s.drop (i' + 3)) with
    | none => simp only [h2] at h; exact Option.noConfusion h
    | some j =>
      simp only [h2, Option.some.injEq, Prod.mk.injEq] at h
      obtain ⟨hi, hlen⟩ := h
      subst hi; subst hlen
      have hb1 := occursAt_length_le (by decide) (findSub_some h1)
      have hb2 := occursAt_length_le (by decide) (findSub_some h2)
      rw [List.length_drop] at hb2
      have h3 : fenceTok.length = 3 := rfl
      rw [h3] at hb1 hb2
      omega

theorem getD_append_ge {l r : List Char} {p : Nat} (hp : l.length ≤ p) :
    (l ++ r).getD p 'q' = r.getD (p - l.length) 'q' := by
  simp only [List.getD_eq_getElem?_getD]
  rw [List.getElem?_append, if_neg (by omega)]

theorem getD_take_lt {l : List Char} {n k : Nat} (hk : k < n) :
    (l.take n).getD k 'q' = l.getD k 'q' := by
  simp only [List.getD_eq_getElem?_getD]
  rw [List.getElem?_take, if_pos hk]

theorem getD_drop (l : List Char) (n k : Nat) :
    (l.drop n).getD k 'q' = l.getD (n + k) 'q' := by
  simp only [List.getD_eq_getElem?_getD]
  rw [List.getElem?_drop]

theorem getD_replicate {n k : Nat} (hk : k < n) :
    (List.replicate n ' ').getD k 'q' = ' ' := by
  simp only [List.getD_eq_getElem?_getD]
  rw [List.getElem?_replicate, if_pos hk]
  rfl

theorem insideSpans_shift (sp : List (Nat × Nat)) (off k : Nat) :
    insideSpans (sp.map fun a => (a.1 + off, a.2)) k =
      if k < off then false else insideSpans sp (k - off) := by
  induction sp with
  | nil => simp [insideSpans]
  | cons pr t ih =>
    simp only [insideSpans, List.map_cons, List.any_cons] at ih ⊢
    rw [ih]
    by_cases hk : k < off
    · simp only [if_pos hk, Bool.or_false]
      simp
      omega
    · simp only [if_neg hk]
      have h1 : (decide (pr.1 + off ≤ k) && decide (k < pr.1 + off + pr.2)) =
          (decide (pr.1 ≤ k - off) && decide (k - off < pr.1 + pr.2)) := by
        rcases Nat.lt_or_ge k (pr.1 + off) with hc | hc
        · rw [decide_eq_false (by omega : ¬(pr.1 + off ≤ k)),
            decide_eq_false (by omega : ¬(pr.1 ≤ k - off))]
          simp
        · rw [decide_eq_true (by omega : pr.1 + off ≤ k),
            decide_eq_true (by omega : pr.1 ≤ k - off),
            decide_eq_decide.mpr
              (by omega : (k < pr.1 + off + pr.2) ↔ (k - off < pr.1 + pr.2))]
      rw [h1]

theorem stripCBAux_length (fuel : Nat) : ∀ s : List Char,
    (stripCBAux fuel s).length = s.length := by
  induction fuel with
  | zero => intro s; rfl
  | succ n ih =>
    intro s
    unfold stripCBAux
    match hf : findFence s with
    | none => rfl
    | some (i, len) =>
      obtain ⟨hb, h6⟩ := findFence_bounds hf
      simp only [List.length_append, List.length_take, List.length_replicate, ih,
        List.length_drop]
      omega

theorem stripCBAux_getD (fuel : Nat) : ∀ (s : List Char) (k : Nat), k < s.length →
    (stripCBAux fuel s).getD k 'q' =
      if insideSpans (fencedSpansAux fuel s) k then ' ' else s.getD k 'q' := by
  induction fuel with
  | zero => intro s k hk; simp [stripCBAux, fencedSpansAux, insideSpans]
  | succ n ih =>
    intro s k hk
    unfold stripCBAux fencedSpansAux
    match hf : findFence s with
    | none => simp [insideSpans]
    | some (i, len) =>
      obtain ⟨hb, h6⟩ := findFence_bounds hf
      have htl : (s.take i).length = i := by
        rw [List.length_take]
        omega
      have hab : (s.take i ++ List.replicate len ' ').length = i + len := by
        simp [htl]
      rw [show insideSpans ((i, len) :: (fencedSpansAux n (s.drop (i + len))).map
            (fun a => (a.1 + (i + len), a.2))) k =
          ((decide (i ≤ k) && decide (k < i + len)) ||
            insideSpans ((fencedSpansAux n (s.drop (i + len))).map
              (fun a => (a.1 + (i + len), a.2))) k) from by simp [insideSpans],
        insideSpans_shift]
      rcases Nat.lt_or_ge k i with hki | hki
      · have hcond : ((decide (i ≤ k) && decide (k < i + len)) ||
            (if k < i + len then false
             else insideSpans (fencedSpansAux n (s.drop (i + len))) (k - (i + len)))) =
            false := by
          rw [if_pos (by omega), decide_eq_false (by omega : ¬(i ≤ k))]
          simp
        rw [if_neg (by rw [hcond]; simp), getD_append_lt (by omega),
          getD_append_lt (by omega), getD_take_lt hki]
      · rcases Nat.lt_or_ge k (i + len) with hkl | hkl
        · have hcond : ((decide (i ≤ k) && decide (k < i + len)) ||
              (if k < i + len then false
               else insideSpans (fencedSpansAux n (s.drop (i + len))) (k - (i + len)))) =
              true := by
            rw [if_pos (by omega), decide_eq_true (by omega : i ≤ k),
              decide_eq_true (by omega : k < i + len)]
            rfl
          rw [if_pos hcond, getD_append_lt (by omega), getD_append_ge (by omega),
            htl, getD_replicate (by omega)]
        · have hcond : ((decide (i ≤ k) && decide (k < i + len)) ||
              (if k < i + len then false
               else insideSpans (fencedSpansAux n (s.drop (i + len))) (k - (i + len)))) =
              insideSpans (fencedSpansAux n (s.drop (i + len))) (k - (i + len)) := by
            rw [if_neg (by omega), decide_eq_false (by omega : ¬(k < i + len))]
            simp
          rw [hcond, getD_append_ge (by omega), hab,
            ih (s.drop (i + len)) (k - (i + len)) (by rw [List.length_drop]; omega),
            getD_drop, show i + len + (k - (i + len)) = k by omega]

theorem stripCodeBlocks_length (s : List Char) :
    (stripCodeBlocks s).length = s.length :=
  stripCBAux_length s.length s

theorem stripCodeBlocks_getD (s : List Char) (k : Nat) (hk : k < s.length) :
    (stripCodeBlocks s).getD k 'q' =
      if insideSpans (fencedSpans s) k then ' ' else s.getD k 'q' :=
  stripCBAux_getD s.length s k hk

/-- If every occurrence of a nonempty, space-free delimiter in `s` lies
inside a fenced span, the delimiter does not occur in the space-filled
text at all. -/
theorem no_occ_stripped (d s : List Char) (hne : d ≠ []) (hsp : ' ' ∉ d)
    (hfence : ∀ p, occursAt d s p →
      ∃ pr, pr ∈ fencedSpans s ∧ pr.1 ≤ p ∧ p + d.length ≤ pr.1 + pr.2) :
    ∀ p, ¬ occursAt d (stripCodeBlocks s) p := by
  intro p hp
  have hlen := occursAt_length_le hne hp
  rw [stripCodeBlocks_length] at hlen
  have hout : ∀ j, j < d.length →
      insideSpans (fencedSpans s) (p + j) = false ∧
        s.getD (p + j) 'q' = d.getD j 'q' := by
    intro j hj
    have hg := occursAt_getD hp hj
    have hk : p + j < s.length := by omega
    rw [stripCodeBlocks_getD s _ hk] at hg
    by_cases hin : insideSpans (fencedSpans s) (p + j) = true
    · rw [if_pos hin] at hg
      have hmem : d.getD j 'q' ∈ d := by
        rw [List.getD_eq_getElem _ _ hj]
        exact List.getElem_mem _
      rw [← hg] at hmem
      exact absurd hmem hsp
    · exact ⟨by simpa using hin, by rwa [if_neg hin] at hg⟩
  have hocc : occursAt d s p := occursAt_of_getD hlen fun j hj => (hout j hj).2
  obtain ⟨pr, hmem, hle, hge⟩ := hfence p hocc
  have hdl : 0 < d.length := List.length_pos.mpr hne
  have h0 := (hout 0 hdl).1
  rw [Nat.add_zero] at h0
  have htrue : insideSpans (fencedSpans s) p = true := by
    rw [insideSpans, List.any_eq_true]
    exact ⟨pr, hmem, by simp; omega⟩
  rw [htrue] at h0
  cases h0

/-- **C5, amended.**  If there is no selection and every occurrence of the
configured delimiter in the text before the cursor lies inside a fenced code
region (in particular if there is none at all), `parsePrompt` fails with the
`MissingPromptDelimiter` error and the document is left unchanged — provided
the delimiter is nonempty, contains no space character, and contains no
ECMAScript regex special character.  Each proviso is forced by the code:
with a space in the delimiter the same-length space filler substituted for
a fenced region can itself produce a match (see the counterexample); with
an empty delimiter the `exec` loop of the source does not terminate; and
a special character makes the unescaped `new RegExp(promptHead, "g")`
match text other than the literal delimiter (the delimiter `.` matches any
character of `abc`, so `parsePrompt` succeeds and mutates although the
literal delimiter occurs nowhere). -/
theorem claim_C5_missing_delimiter (d doc : List Char) (off : Nat) (ts : String)
    (hne : d ≠ []) (hsp : ' ' ∉ d)
    (_hlit : ∀ x, x ∈ d → isRegexMetaChar x = false)
    (hfence : ∀ p, occursAt d (doc.take off) p →
      ∃ pr, pr ∈ fencedSpans (doc.take off) ∧
        pr.1 ≤ p ∧ p + d.length ≤ pr.1 + pr.2) :
    parsePromptNoSelection d doc off ts = none ∧
    docAfterPromptNoSelection d doc off ts = doc := by
  have hfs : findSub d (stripCodeBlocks (doc.take off)) = none :=
    findSub_none_iff.mpr (no_occ_stripped d _ hne hsp hfence)
  have hnone : lastMatchIndex d (stripCodeBlocks (doc.take off)) = none := by
    unfold lastMatchIndex
    rw [lastMatchAux, hfs]
  constructor
  · simp only [parsePromptNoSelection, hnone]
  · simp only [docAfterPromptNoSelection, parsePromptNoSelection, hnone]

/-- Witness for `claim_C5_missing_delimiter`: delimiter `//`, document `abc`
with no occurrence at all. -/
theorem claim_C5_missing_delimiter_witness :
    parsePromptNoSelection "//".data "abc".data 3 "2026-00-15T10:30" = none ∧
    docAfterPromptNoSelection "//".data "abc".data 3 "2026-00-15T10:30" =
      "abc".data :=
  claim_C5_missing_delimiter "//".data "abc".data 3 "2026-00-15T10:30"
    (by decide) (by decide) (by decide)
    (fun p hp =>
      absurd hp (no_occursAt_of_not_mem (x := '/') (by decide) (by decide) p))

/-- **C5, counterexample.**  For the single-space delimiter and the document
`"```x```"` (everything fenced), no occurrence of the delimiter exists in
the text at all — so the claim demands the `MissingPromptDelimiter` failure —
yet `parsePrompt` succeeds: the space filler substituted for the fenced
region matches the delimiter. -/
theorem claim_C5_counterexample :
    findSub [' '] "```x```".data = none ∧
    (parsePromptNoSelection [' '] "```x```".data 7 "2026-00-15T10:30").isSome =
      true := by
  constructor
  · rfl
  · rfl

/-! ## Claim C6: span replacement on delimiter-based extraction -/

/-- A document whose raw prompt (`//hi`) sits at the start, followed by 80
more characters; the cursor is at offset 4, the end of the raw prompt. -/
def c6Doc : List Char := "//hi".data ++ List.replicate 80 'z'

def c6Ts : String := insertTimestamp ⟨2026, 4, 15, 10, 30⟩

/-- **C6, evaluation at the failing input.**  The claim (and §4.1/§9 of the
spec, and the README bugfix note) require replacing exactly the located raw
prompt span `[0, 4)`, which would give `encoded block ++ 80 · 'z'`.  The
code instead replaces `[promptStartIndex, promptStartIndex +
formattedPrompt.length)` — 64 characters here — so the 60 `z`s that follow
the raw prompt are overwritten and only 20 survive. -/
theorem claim_C6_code_eval :
    docAfterPromptNoSelection "//".data c6Doc 4 c6Ts =
      (encodeUserTurn c6Ts "hi").data ++ List.replicate 20 'z' ∧
    (encodeUserTurn c6Ts "hi").data ++ List.replicate 20 'z' ≠
      (encodeUserTurn c6Ts "hi").data ++ List.replicate 80 'z' := by
  constructor
  · rfl
  · decide

/-! ## Claim C7: configuration precedence, non-overwrite, idempotence -/

theorem resolveField3_fst {α : Type} (fmv stv : Option α) (d : α) :
    (resolveField3 fmv stv d).1 = fmv.getD (stv.getD d) := by
  cases fmv <;> cases stv <;> rfl

theorem resolveField3_snd {α : Type} (fmv stv : Option α) (d : α) :
    (resolveField3 fmv stv d).2 = fmv.isNone := by
  cases fmv <;> cases stv <;> rfl

theorem resolver_writes_fresh (fm : Frontmatter) (st : StoredSettings) :
    ∀ kv, kv ∈ (prepareOpenAIChatCompletionRequest fm st).2 →
      fmHasKey fm kv.1 = false := by
  intro kv hkv
  simp only [prepareOpenAIChatCompletionRequest, resolveField3_snd] at hkv
  rcases List.mem_append.mp hkv with h | h
  · rcases List.mem_append.mp h with h | h
    · rcases List.mem_append.mp h with h | h
      · by_cases hn : fm.aissist_openai_chat_model.isNone = true
        · rw [if_pos hn] at h
          rw [List.mem_singleton.mp h]
          rw [Option.isNone_iff_eq_none] at hn
          simp [fmHasKey, hn]
        · rw [if_neg hn] at h
          cases h
      · by_cases hn : fm.aissist_openai_chat_max_tokens.isNone = true
        · rw [if_pos hn] at h
          rw [List.mem_singleton.mp h]
          rw [Option.isNone_iff_eq_none] at hn
          simp [fmHasKey, hn]
        · rw [if_neg hn] at h
          cases h
    · by_cases hn : fm.aissist_openai_chat_temperature.isNone = true
      · rw [if_pos hn] at h
        rw [List.mem_singleton.mp h]
        rw [Option.isNone_iff_eq_none] at hn
        simp [fmHasKey, hn]
      · rw [if_neg hn] at h
        cases h
  · by_cases hn : fm.aissist_openai_chat_system_message.isNone = true
    · rw [if_pos hn] at h
      rw [List.mem_singleton.mp h]
      rw [Option.isNone_iff_eq_none] at hn
      simp [fmHasKey, hn]
    · rw [if_neg hn] at h
      cases h

theorem resolver_idem (fm : Frontmatter) (st : StoredSettings)
    (hall : allResolverFieldsPresent fm) :
    (prepareOpenAIChatCompletionRequest fm st).2 = [] ∧
    prepareOpenAIChatCompletionRequest
        (applyWrites fm (prepareOpenAIChatCompletionRequest fm st).2) st =
      prepareOpenAIChatCompletionRequest fm st := by
  obtain ⟨h1, h2, h3, h4⟩ := hall
  have hw : (prepareOpenAIChatCompletionRequest fm st).2 = [] := by
    simp only [prepareOpenAIChatCompletionRequest, resolveField3_snd]
    rw [if_neg (by rw [Option.isNone_iff_eq_none]; intro hc; rw [hc] at h1; cases h1),
      if_neg (by rw [Option.isNone_iff_eq_none]; intro hc; rw [hc] at h2; cases h2),
      if_neg (by rw [Option.isNone_iff_eq_none]; intro hc; rw [hc] at h3; cases h3),
      if_neg (by rw [Option.isNone_iff_eq_none]; intro hc; rw [hc] at h4; cases h4)]
    rfl
  refine ⟨hw, ?_⟩
  rw [hw]
  rfl

/-- **C7.**  Configuration precedence and non-overwrite: per field, the
resolved value is the metadata value when present, otherwise the stored
setting when that tier exists and is present, otherwise the compiled
default; the resolver never writes a key the metadata already holds; and
resolving with all-present metadata performs no writes and a second
resolution yields the identical configuration, again with no writes. -/
theorem claim_C7_config_resolution (fm : Frontmatter) (st : StoredSettings) :
    ((prepareOpenAIChatCompletionRequest fm st).1.model =
        fm.aissist_openai_chat_model.getD
          (st.openAIChatModel.getD DEFAULT_SETTINGS.openAIChatModel) ∧
      (prepareOpenAIChatCompletionRequest fm st).1.max_tokens =
        fm.aissist_openai_chat_max_tokens.getD
          (st.openAIMaxTokens.getD DEFAULT_SETTINGS.openAIMaxTokens) ∧
      (prepareOpenAIChatCompletionRequest fm st).1.temperature =
        fm.aissist_openai_chat_temperature.getD
          (st.openAIChatTemperature.getD DEFAULT_SETTINGS.openAIChatTemperature) ∧
      (prepareOpenAIChatCompletionRequest fm st).1.system_message =
        fm.aissist_openai_chat_system_message.getD OPEN_AI_CHAT_SYSTEM_MESSAGE ∧
      (prepareOpenAIChatCompletionRequest fm st).1.frequency_penalty =
        fm.aissist_openai_chat_frequency_penalty.getD
          DEFAULT_SETTINGS.openAIChatFrequencyPenalty ∧
      (prepareOpenAIChatCompletionRequest fm st).1.n =
        fm.aissist_openai_chat_n.getD DEFAULT_SETTINGS.openAIChatN ∧
      (prepareOpenAIChatCompletionRequest fm st).1.presence_penalty =
        fm.aissist_openai_chat_presence_penalty.getD
          DEFAULT_SETTINGS.openAIChatPresencePenalty ∧
      (prepareOpenAIChatCompletionRequest fm st).1.top_p =
        fm.aissist_openai_chat_top_p.getD DEFAULT_SETTINGS.openAIChatTopP) ∧
    (∀ kv, kv ∈ (prepareOpenAIChatCompletionRequest fm st).2 →
      fmHasKey fm kv.1 = false) ∧
    (allResolverFieldsPresent fm →
      (prepareOpenAIChatCompletionRequest fm st).2 = [] ∧
      prepareOpenAIChatCompletionRequest
          (applyWrites fm (prepareOpenAIChatCompletionRequest fm st).2) st =
        prepareOpenAIChatCompletionRequest fm st) := by
  refine ⟨⟨?_, ?_, ?_, ?_, ?_, ?_, ?_, ?_⟩,
    resolver_writes_fresh fm st, resolver_idem fm st⟩ <;>
    simp [prepareOpenAIChatCompletionRequest, resolveField3_fst]

/-- Metadata that already carries all resolver-written fields. -/
def c7FullFrontmatter : Frontmatter where
  aissist_openai_chat_model := some "gpt-4o-mini"
  aissist_openai_chat_max_tokens := some 512
  aissist_openai_chat_temperature := some 1
  aissist_openai_chat_system_message := some "Be terse"

/-- Witness for `claim_C7_config_resolution`: with all-present metadata the
resolver performs no writes and re-resolution is identical. -/
theorem claim_C7_config_resolution_witness :
    (prepareOpenAIChatCompletionRequest c7FullFrontmatter {}).2 = [] ∧
    prepareOpenAIChatCompletionRequest
        (applyWrites c7FullFrontmatter
          (prepareOpenAIChatCompletionRequest c7FullFrontmatter {}).2) {} =
      prepareOpenAIChatCompletionRequest c7FullFrontmatter {} :=
  (claim_C7_config_resolution c7FullFrontmatter {}).2.2 ⟨rfl, rfl, rfl, rfl⟩

/-! ## Claim C8: additive usage-counter merge -/

/-- **C8.**  After a successful reply insertion, each of the three usage
fields is written with the prior metadata value plus the usage value from
the request executor, or the raw usage value when no prior entry exists.
(A prior value of `0` is falsy in JS, so the source takes the raw-value
branch then; `0 + tokens = tokens` makes the written value agree with the
claim anyway.) -/
theorem claim_C8_usage_merge (pc pp pt : Option Int) (u : Usage) :
    insertResponseUsageWrites pc pp pt u =
      [("aissist_openai_chat_completion_tokens",
          match pc with
          | some p => p + u.completion_tokens
          | none => u.completion_tokens),
       ("aissist_openai_chat_prompt_tokens",
          match pp with
          | some p => p + u.prompt_tokens
          | none => u.prompt_tokens),
       ("aissist_openai_chat_total_tokens",
          match pt with
          | some p => p + u.total_tokens
          | none => u.total_tokens)] := by
  have key : ∀ (prior : Option Int) (t : Int),
      updatePropertyValue prior t =
        (match prior with | some p => p + t | none => t) := by
    intro prior t
    match prior with
    | none => rfl
    | some p =>
      by_cases hp : p = 0
      · simp [updatePropertyValue, hp]
      · simp [updatePropertyValue, hp]
  simp [insertResponseUsageWrites, key]

/-! ## Claim C9: timestamps in start markers -/

/-- Modelled from the spec's words for the amended claim: the
`YYYY-MM-DDTHH:MM` format with a *zero-based* month field (00 = January …
11 = December), each two-digit field zero-padded. -/
def specPad2 (n : Nat) : String := if n < 10 then "0" ++ toString n else toString n

/-- The timestamp format the code actually produces, written out
independently of the source's `padStart` plumbing. -/
def specTimestampZeroBasedMonth (d : DateParts) : String :=
  toString d.year ++ "-" ++ specPad2 d.month0 ++ "-" ++ specPad2 d.day ++ "T" ++
    specPad2 d.hour ++ ":" ++ specPad2 d.minute

theorem padStart2_toString_eq (n : Nat) (h : n < 100) :
    padStart2 (toString n) = specPad2 n := by
  revert h
  revert n
  decide

/-- The encoded user turn starts with the marker
`> %% AIssist; role:user; <timestamp> %%`. -/
theorem encodeUserTurn_marker (ts c : String) :
    (encodeUserTurn ts c).data =
      ("> %% AIssist; role:user; ".data ++ ts.data ++ " %%".data) ++
        (USER_EMOJI.data ++ '\n' ::
          (List.intercalate ['\n']
            ((splitNl c.data).map fun line => '>' :: ' ' :: line)) ++ ['\n']) := by
  simp [encodeUserTurn, MARKER_START, MARKER_END, USER_EMOJI, String.data_append,
    List.append_assoc]

/-- **C9, counterexample.**  At local time January 15 2026, 10:30, the code
timestamps the user marker with `2026-00-15T10:30`: the month field is the
zero-based `getMonth()` value `00`, not the calendar month `01` the claim
requires.  Moreover the assistant start marker (the first 32 characters of
every encoded reply) contains no digit at all, so it carries no timestamp,
while the claim asserts user and assistant markers alike carry one. -/
theorem claim_C9_counterexample :
    insertTimestamp ⟨2026, 0, 15, 10, 30⟩ = "2026-00-15T10:30" ∧
    "2026-00-15T10:30" ≠ "2026-01-15T10:30" ∧
    ((encodeAssistantReply "4").data.take 32).all (fun x => !x.isDigit) = true := by
  refine ⟨rfl, by decide, by decide⟩

/-- **C9, amended.**  Only user-turn start markers carry a timestamp; it is
the local wall-clock time in the format `YYYY-MM-DDTHH:MM` where `MM` is the
*zero-based* month (`00` for January through `11` for December), zero-padded
like the other two-digit fields.  Assistant start markers carry no timestamp
(their fixed 32-character marker holds no digit). -/
theorem claim_C9_timestamp_format (d : DateParts) (c : String)
    (hm : d.month0 ≤ 11) (hd : d.day ≤ 31) (hh : d.hour ≤ 23)
    (hmin : d.minute ≤ 59) :
    insertTimestamp d = specTimestampZeroBasedMonth d ∧
    startsWithL (encodeUserTurn (insertTimestamp d) c).data
      ("> %% AIssist; role:user; ".data ++ (insertTimestamp d).data ++
        " %%".data) = true ∧
    (∀ x, x ∈ (encodeAssistantReply c).data.take 32 → x.isDigit = false) := by
  refine ⟨?_, ?_, ?_⟩
  · unfold insertTimestamp specTimestampZeroBasedMonth
    rw [padStart2_toString_eq d.month0 (by omega),
      padStart2_toString_eq d.day (by omega),
      padStart2_toString_eq d.hour (by omega),
      padStart2_toString_eq d.minute (by omega)]
  · rw [encodeUserTurn_marker, startsWithL_iff, List.take_left]
  · have htake : (encodeAssistantReply c).data.take 32 =
        "\n%% AIssist; role:assistant; %% ".data := by
      have hdata : (encodeAssistantReply c).data =
          "\n%% AIssist; role:assistant; %% ".data ++ c.data := by
        simp [encodeAssistantReply, MARKER_START, MARKER_END, String.data_append]
      rw [hdata]
      exact take_len_append _ _ (by decide)
    rw [htake]
    decide

/-- Witness for `claim_C9_timestamp_format` at January 15 2026, 10:30. -/
theorem claim_C9_timestamp_format_witness :
    insertTimestamp ⟨2026, 0, 15, 10, 30⟩ =
      specTimestampZeroBasedMonth ⟨2026, 0, 15, 10, 30⟩ ∧
    startsWithL (encodeUserTurn (insertTimestamp ⟨2026, 0, 15, 10, 30⟩) "hi").data
      ("> %% AIssist; role:user; ".data ++
        (insertTimestamp ⟨2026, 0, 15, 10, 30⟩).data ++ " %%".data) = true := by
  have h := claim_C9_timestamp_format ⟨2026, 0, 15, 10, 30⟩ "hi"
    (by decide) (by decide) (by decide) (by decide)
  exact ⟨h.1, h.2.1⟩

/-! ## Claim C10: implicit system-message prepending -/

/-- **C10.**  When the resolved `system_message` is a non-empty string,
`requestOpenAIChatCompletion` prepends a system-role message holding it at
position 0 of the conversation before issuing the request — so the message
list actually sent is one longer than the conversation assembled under the
window maximum — and when it is empty the conversation is sent unchanged. -/
theorem claim_C10_system_message_prepending (params : OpenAIChatRequestParams)
    (conversation : List OpenAIChatMessage) :
    (params.system_message ≠ "" →
      requestOpenAIChatCompletionMessages params conversation =
        ⟨"system", params.system_message⟩ :: conversation ∧
      (requestOpenAIChatCompletionMessages params conversation).length =
        conversation.length + 1) ∧
    (params.system_message = "" →
      requestOpenAIChatCompletionMessages params conversation = conversation) := by
  constructor
  · intro h
    unfold requestOpenAIChatCompletionMessages
    rw [if_pos h]
    exact ⟨rfl, by simp⟩
  · intro h
    unfold requestOpenAIChatCompletionMessages
    rw [if_neg (fun hc => hc h)]

/-- Request parameters with the given system message and otherwise the
compiled defaults. -/
def c10Params (sm : String) : OpenAIChatRequestParams where
  model := DEFAULT_SETTINGS.openAIChatModel
  frequency_penalty := DEFAULT_SETTINGS.openAIChatFrequencyPenalty
  max_tokens := DEFAULT_SETTINGS.openAIMaxTokens
  n := DEFAULT_SETTINGS.openAIChatN
  presence_penalty := DEFAULT_SETTINGS.openAIChatPresencePenalty
  temperature := DEFAULT_SETTINGS.openAIChatTemperature
  top_p := DEFAULT_SETTINGS.openAIChatTopP
  system_message := sm

/-- Witness for `claim_C10_system_message_prepending` in both branches. -/
theorem claim_C10_system_message_prepending_witness :
    requestOpenAIChatCompletionMessages (c10Params "You are a helpful assistant")
        [⟨"user", "hi"⟩] =
      [⟨"system", "You are a helpful assistant"⟩, ⟨"user", "hi"⟩] ∧
    requestOpenAIChatCompletionMessages (c10Params "") [⟨"user", "hi"⟩] =
      [⟨"user", "hi"⟩] :=
  ⟨((claim_C10_system_message_prepending (c10Params "You are a helpful assistant")
      [⟨"user", "hi"⟩]).1 (by decide)).1,
   (claim_C10_system_message_prepending (c10Params "") [⟨"user", "hi"⟩]).2 rfl⟩

end AIssist
